import Mathlib

/-!
Shallow embedding of the IYP upsert / identity-resolution layer
(`iyp/__init__.py`): property normalization (`format_properties`), the
memoized node resolver (`get_node` behind `freezeargs` + `lru_cache`),
the external-id resolver (`get_node_extid`), the relationship batcher
(`add_links`), and the transaction operations (`commit`, `rollback`).

Python scalar values are modelled by `Value` (integers and strings);
property maps by association lists with dict-style lookup/assignment;
the Neo4j store by an explicit `Store` of nodes and relationships; the
transaction by a committed/working pair of stores; the two `lru_cache`
memoization tables by explicit association lists inside `IYPState`.
Exceptions (TypeError from hashing a list, KeyError, ValueError from
`int()`, AttributeError from `.lower()` on an int, AssertionError from
`add_links`) are modelled with `Except`.
-/

namespace Iyp

/-- Value models the Python scalar values that appear in property maps:
integers and strings.  (Timestamps travel as strings; floats are not
used by the claims.) -/
inductive Value where
  | vInt (n : Int)
  | vStr (s : String)
deriving DecidableEq, Repr

/-- PropMap models a Python dict from property names to scalar values,
as an association list (callers build genuine dicts, so keys are
expected unique; lookup returns the first binding). -/
abbrev PropMap := List (String × Value)

/-- lookupP models `d[k]` / `k in d`: first binding of `k`. -/
def lookupP (p : PropMap) (k : String) : Option Value :=
  List.lookup k p

/-- setKey models `d[k] = v` when `k` is already a key of `d`:
every binding of `k` is updated in place, other bindings untouched. -/
def setKey (p : PropMap) (k : String) (v : Value) : PropMap :=
  p.map (fun kv => if kv.1 = k then (k, v) else kv)

/-- hasKey models `k in d`. -/
def hasKey (p : PropMap) (k : String) : Bool :=
  (lookupP p k).isSome

/-- dictSet models Python dict assignment `d[k] = v`: update the existing
binding, or append a new one. -/
def dictSet (p : PropMap) (k : String) (v : Value) : PropMap :=
  if hasKey p k then setKey p k v else p ++ [(k, v)]

/-- Err models the Python exceptions that can escape the embedded
operations. -/
inductive Err where
  | typeError
  | keyError (k : String)
  | valueError
  | attrError
  | assertionError
deriving DecidableEq, Repr

/-- digitsVal folds a run of decimal digits into a number; none on any
non-digit character. -/
def digitsVal : List Char → Nat → Option Nat
  | [], acc => some acc
  | c :: rest, acc =>
    if 48 ≤ c.toNat ∧ c.toNat ≤ 57 then digitsVal rest (acc * 10 + (c.toNat - 48))
    else none

/-- parseNat parses a nonempty run of decimal digits. -/
def parseNat (cs : List Char) : Option Nat :=
  match cs with
  | [] => none
  | _ => digitsVal cs 0

/-- strToInt models Python `int(s)` on a string: an optional sign
followed by decimal digits; anything else raises ValueError. -/
def strToInt (s : String) : Option Int :=
  match s.data with
  | [] => none
  | c :: rest =>
    if c.toNat = 45 then (parseNat rest).map (fun n => -(n : Int))
    else if c.toNat = 43 then (parseNat rest).map (fun n => (n : Int))
    else (parseNat (c :: rest)).map (fun n => (n : Int))

/-- toIntValue models Python `int(x)` on a scalar: an int is returned
unchanged, a string is parsed as a decimal integer (ValueError when it
does not parse). -/
def toIntValue : Value → Except Err Value
  | .vInt n => .ok (.vInt n)
  | .vStr s =>
    match strToInt s with
    | some n => .ok (.vInt n)
    | none => .error .valueError

/-- strLower models Python `s.lower()` (ASCII range, character by
character). -/
def strLower (s : String) : String := ⟨s.data.map Char.toLower⟩

/-- strUpper models Python `s.upper()` (ASCII range, character by
character). -/
def strUpper (s : String) : String := ⟨s.data.map Char.toUpper⟩

/-- lowerValue models Python `x.lower()`: defined on strings only
(AttributeError on an int). -/
def lowerValue : Value → Except Err Value
  | .vInt _ => .error .attrError
  | .vStr s => .ok (.vStr (strLower s))

/-- upperValue models Python `x.upper()`: defined on strings only
(AttributeError on an int). -/
def upperValue : Value → Except Err Value
  | .vInt _ => .error .attrError
  | .vStr s => .ok (.vStr (strUpper s))

/-- formatKey applies one rule of `format_properties`: if key `k` is
present, replace its value by `f value`, otherwise leave the map
unchanged. -/
def formatKey (f : Value → Except Err Value) (k : String) (p : PropMap) : Except Err PropMap :=
  match lookupP p k with
  | none => .ok p
  | some v => do
    let w ← f v
    return setKey p k w

/-- format_properties models the normalizer of `iyp/__init__.py`:
`asn` is coerced to an int, `ip` and the prefix key are lowercased,
`country_code` is uppercased; every other property passes through.
The Python function first copies the dict (`prop = dict(prop)`), so the
caller's map is never mutated; in the embedding this purity is
intrinsic. -/
def format_properties (p : PropMap) : Except Err PropMap := do
  let p1 ← formatKey toIntValue "asn" p
  let p2 ← formatKey lowerValue "ip" p1
  let p3 ← formatKey lowerValue "prefix" p2
  let p4 ← formatKey upperValue "country_code" p3
  return p4

/-- NODE_CONSTRAINTS models the constraint registry of the source, in
source order: label to list of (property, constraint kinds). -/
def NODE_CONSTRAINTS : List (String × List (String × List String)) :=
  [("AS", [("asn", ["UNIQUE", "NOT NULL"])]),
   ("PREFIX", [("prefix", ["UNIQUE", "NOT NULL"]), ("af", ["NOT NULL"])]),
   ("IP", [("ip", ["UNIQUE", "NOT NULL"]), ("af", ["NOT NULL"])]),
   ("DOMAIN_NAME", [("name", ["UNIQUE", "NOT NULL"])]),
   ("COUNTRY", [("country_code", ["UNIQUE", "NOT NULL"])]),
   ("ORGANIZATION", [("name", ["NOT NULL"])])]

/-- NODE_CONSTRAINTS_LABELS models the set of labels with constraints. -/
def NODE_CONSTRAINTS_LABELS : List String := NODE_CONSTRAINTS.map (·.1)

/-- UNIQUE_PROPS records the (label, property) pairs under a UNIQUE
constraint.  Since `neo4j_enterprise = False` in the source, `_db_init`
only declares UNIQUE constraints to the store (NOT NULL is skipped), so
these are exactly the constraints the store enforces. -/
def UNIQUE_PROPS : List (String × String) :=
  NODE_CONSTRAINTS.foldr (fun lc acc =>
    (lc.2.filter (fun pc => pc.2.contains "UNIQUE")).map (fun pc => (lc.1, pc.1)) ++ acc) []

/-- Node models a graph node: a label set and a property map. -/
structure Node where
  labels : List String
  props : PropMap
deriving DecidableEq, Repr

/-- Store models the visible state of the Neo4j graph: identified nodes,
relationships (source id, type, properties, destination id), and the
next internal id. -/
structure Store where
  nodes : List (Nat × Node)
  rels : List (Nat × String × PropMap × Nat)
  nextId : Nat
deriving DecidableEq, Repr

def emptyStore : Store := { nodes := [], rels := [], nextId := 0 }

/-- nodeMatches models Cypher pattern matching `(a:L1:... {props})`:
the node carries every pattern label and every pattern property with an
equal value (extra labels and properties are allowed). -/
def nodeMatches (n : Node) (labels : List String) (pat : PropMap) : Bool :=
  labels.all (n.labels.contains ·) && pat.all (fun kv => lookupP n.props kv.1 == some kv.2)

/-- matchNode models `MATCH (a:...) RETURN ID(a)` followed by
`.single()`: the id of the first matching node, or none. -/
def matchNode (st : Store) (labels : List String) (pat : PropMap) : Option Nat :=
  (st.nodes.find? (fun idn => nodeMatches idn.2 labels pat)).map (·.1)

/-- getNode? fetches the node with internal id `i`. -/
def getNode? (st : Store) (i : Nat) : Option Node :=
  (st.nodes.find? (fun idn => idn.1 == i)).map (·.2)

/-- setProps models the Cypher clause `SET a.k1 = v1, a.k2 = v2, ...`
generated from a property map: each supplied key is overwritten (or
added); properties not mentioned are kept. -/
def setProps (base : PropMap) (upd : PropMap) : PropMap :=
  upd.foldl (fun acc kv => dictSet acc kv.1 kv.2) base

/-- addLabels models the Cypher clause `SET a:L1, a:L2, ...`: each
listed label is added if not already present. -/
def addLabels (ls : List String) (new : List String) : List String :=
  new.foldl (fun acc l => if acc.contains l then acc else acc ++ [l]) ls

/-- updNode rewrites the node with id `i` in the store. -/
def updNode (st : Store) (i : Nat) (f : Node → Node) : Store :=
  { st with nodes := st.nodes.map (fun idn => if idn.1 = i then (i, f idn.2) else idn) }

def allDistinct : List Value → Bool
  | [] => true
  | v :: vs => !(vs.contains v) && allDistinct vs

/-- uniqueOk models the store-side UNIQUE constraint check: for every
declared (label, property) uniqueness pair, no two nodes carrying the
label hold the same value of the property. -/
def uniqueOk (st : Store) : Bool :=
  UNIQUE_PROPS.all (fun lp =>
    allDistinct ((st.nodes.filter (fun idn => idn.2.labels.contains lp.1)).filterMap
      (fun idn => lookupP idn.2.props lp.2)))

/-- mergeConstrained models the constrained-label statement of
`get_node`: `MERGE (a:label {constraint_prop}) ON MATCH SET <all props,
all labels> ON CREATE SET <all props, all labels> RETURN ID(a)`.  If
the resulting state violates a UNIQUE constraint the statement raises
ConstraintError and its effects are discarded. -/
def mergeConstrained (st : Store) (label : String) (cp : PropMap) (tys : List String)
    (props : PropMap) : Except Unit (Store × Nat) :=
  match matchNode st [label] cp with
  | some i =>
    let st1 := updNode st i (fun n =>
      { labels := addLabels n.labels tys, props := setProps n.props props })
    if uniqueOk st1 then .ok (st1, i) else .error ()
  | none =>
    let nd : Node := { labels := addLabels [label] tys, props := setProps cp props }
    let st1 := { st with nodes := st.nodes ++ [(st.nextId, nd)], nextId := st.nextId + 1 }
    if uniqueOk st1 then .ok (st1, st.nextId) else .error ()

/-- mergeNode models the unconstrained statement
`MERGE (a:type_str {props}) RETURN ID(a)`: match a node carrying all
the labels and properties, or create one with exactly them.  (The
created node carries only unconstrained labels, so no UNIQUE constraint
can fire here.) -/
def mergeNode (st : Store) (tys : List String) (props : PropMap) : Store × Nat :=
  match matchNode st tys props with
  | some i => (st, i)
  | none =>
    let nd : Node := { labels := tys, props := props }
    ({ st with nodes := st.nodes ++ [(st.nextId, nd)], nextId := st.nextId + 1 },
     st.nextId)

/-- strLeChars is a lexicographic comparison on character lists (by
code point), used only to fix one canonical order of cache keys. -/
def strLeChars : List Char → List Char → Bool
  | [], _ => true
  | _ :: _, [] => false
  | a :: as, b :: bs =>
    if a.toNat < b.toNat then true
    else if b.toNat < a.toNat then false
    else strLeChars as bs

/-- strLe compares two strings lexicographically by code point. -/
def strLe (a b : String) : Bool := strLeChars a.data b.data

/-- insertSorted inserts one binding into a key-sorted association
list. -/
def insertSorted (x : String × Value) : PropMap → PropMap
  | [] => [x]
  | y :: ys => if strLe x.1 y.1 then x :: y :: ys else y :: insertSorted x ys

/-- canon sorts a property map by key.  Two Python dicts are equal (and
their frozendicts hash alike) exactly when they hold the same
key-to-value mapping, independently of insertion order; for maps with
distinct keys this coincides with equality of the key-sorted lists, so
cache keys are stored canonically. -/
def canon (p : PropMap) : PropMap := p.foldr insertSorted []

/-- CacheKey models the memoization key of the `freezeargs` +
`lru_cache` layer on `get_node`: the raw label argument, the frozendict
of the raw (unformatted) property map, and the create flag. -/
structure CacheKey where
  ty : String
  prop : PropMap
  create : Bool
deriving DecidableEq, Repr

def cacheKey (ty : String) (prop : PropMap) (create : Bool) : CacheKey :=
  { ty := ty, prop := canon prop, create := create }

/-- IYPState models one IYP instance: the durable store, the store as
seen by the open transaction, the two lru_cache tables, a counter of
statements issued to the store, and a counter of warnings written to
stderr. -/
structure IYPState where
  committed : Store
  tx : Store
  cache : List (CacheKey × Option Nat)
  extCache : List ((String × Value) × Option Nat)
  queries : Nat
  warnings : Nat
deriving DecidableEq, Repr

def emptyIYP : IYPState :=
  { committed := emptyStore, tx := emptyStore, cache := [], extCache := [],
    queries := 0, warnings := 0 }

/-- commit models `IYP.commit`: `self.tx.commit()` makes the pending
work durable and `begin_transaction()` opens a fresh transaction over
that state.  The memoization tables are not touched by the source. -/
def commit (s : IYPState) : IYPState := { s with committed := s.tx }

/-- rollback models `IYP.rollback`: `self.tx.rollback()` discards the
pending work and `begin_transaction()` opens a fresh transaction over
the durable state.  The memoization tables are not touched by the
source. -/
def rollback (s : IYPState) : IYPState := { s with tx := s.committed }

/-- LabelArg models the `type` argument of `get_node`: a single label
string or a Python list of label strings. -/
inductive LabelArg where
  | one (s : String)
  | many (ls : List String)
deriving DecidableEq, Repr

/-- constraintKeys lists `NODE_CONSTRAINTS[label].keys()` in source
order. -/
def constraintKeys (label : String) : List String :=
  match NODE_CONSTRAINTS.lookup label with
  | some pcs => pcs.map (·.1)
  | none => []

/-- constraintProp models
`dict([(c, prop[c]) for c in NODE_CONSTRAINTS[label].keys()])`;
a missing key raises KeyError. -/
def constraintProp (label : String) (q : PropMap) : Except Err PropMap :=
  (constraintKeys label).mapM (fun c =>
    match lookupP q c with
    | some v => Except.ok (c, v)
    | none => Except.error (Err.keyError c))

/-- get_node_body models the body of `IYP.get_node` after the
memoization layer, for a single-string label argument (list arguments
never reach the body, see `get_node`): format the properties, then
MERGE with constraint fallback (create on a constrained label), plain
MERGE (create on an unconstrained label), or plain MATCH
(create=False). -/
def get_node_body (s : IYPState) (ty : String) (prop : PropMap) (create : Bool) :
    Except Err (IYPState × Option Nat) := do
  let q ← format_properties prop
  let tys := [ty]
  if create then
    if NODE_CONSTRAINTS_LABELS.contains ty then do
      let cp ← constraintProp ty q
      match mergeConstrained s.tx ty cp tys q with
      | .ok (st1, i) =>
        return ({ s with tx := st1, queries := s.queries + 1 }, some i)
      | .error _ =>
        return ({ s with queries := s.queries + 2, warnings := s.warnings + 1 },
                matchNode s.tx [ty] cp)
    else
      let (st1, i) := mergeNode s.tx tys q
      return ({ s with tx := st1, queries := s.queries + 1 }, some i)
  else
    return ({ s with queries := s.queries + 1 }, matchNode s.tx tys q)

/-- cacheLookup models the memoization-table lookup of `lru_cache`. -/
def cacheLookup (s : IYPState) (k : CacheKey) : Option (Option Nat) :=
  (s.cache.find? (fun e => decide (e.1 = k))).map (·.2)

/-- get_node models `IYP.get_node` as seen by a caller, including the
`freezeargs` + `lru_cache` decorators: a dict argument is frozen, but a
list label argument stays a list and `lru_cache` raises TypeError when
hashing it, before the body runs; on a cache hit the cached value is
returned with no store access; on a miss the body runs and its result
(identifier or None) is memoized.  Exceptions from the body are not
memoized. -/
def get_node (s : IYPState) (ty : LabelArg) (prop : PropMap) (create : Bool) :
    Except Err (IYPState × Option Nat) :=
  match ty with
  | .many _ => .error .typeError
  | .one t =>
    match cacheLookup s (cacheKey t prop create) with
    | some v => .ok (s, v)
    | none => do
      let (s1, r) ← get_node_body s t prop create
      return ({ s1 with cache := (cacheKey t prop create, r) :: s1.cache }, r)

/-- extidMatch models the pattern
`(a)-[:EXTERNAL_ID]->(:id_type {id: id})`. -/
def extidMatch (st : Store) (idType : String) (idv : Value)
    (rel : Nat × String × PropMap × Nat) : Bool :=
  rel.2.1 == "EXTERNAL_ID" &&
    match getNode? st rel.2.2.2 with
    | some n => n.labels.contains idType && (lookupP n.props "id" == some idv)
    | none => false

/-- get_node_extid models `IYP.get_node_extid` with its own `lru_cache`
keyed on (id_type, id): find a node with an EXTERNAL_ID relationship to
an id node, memoizing the result. -/
def get_node_extid (s : IYPState) (idType : String) (idv : Value) : IYPState × Option Nat :=
  match s.extCache.find? (fun e => decide (e.1 = (idType, idv))) with
  | some e => (s, e.2)
  | none =>
    let r := (s.tx.rels.find? (extidMatch s.tx idType idv)).map (·.1)
    ({ s with extCache := ((idType, idv), r) :: s.extCache, queries := s.queries + 1 }, r)

/-- Link models one `(type, dst_node, prop)` entry of the `links`
argument of `add_links`. -/
abbrev Link := String × Nat × PropMap

/-- checkLink models one iteration of the `add_links` loop: the three
mandatory provenance keys are asserted on the raw map, then the map is
formatted.  No statement is issued here; the loop only builds the
query text. -/
def checkLink (l : Link) : Except Err (String × Nat × PropMap) := do
  if !(hasKey l.2.2 "reference_org") then throw Err.assertionError
  if !(hasKey l.2.2 "reference_url") then throw Err.assertionError
  if !(hasKey l.2.2 "reference_time") then throw Err.assertionError
  let q ← format_properties l.2.2
  return (l.1, l.2.1, q)

/-- relMatches models the MERGE pattern `(x)-[:type {props}]->(xi)` on
an existing relationship. -/
def relMatches (r : Nat × String × PropMap × Nat) (src : Nat) (t : String)
    (pat : PropMap) (dst : Nat) : Bool :=
  r.1 == src && r.2.1 == t && r.2.2.2 == dst &&
    pat.all (fun kv => lookupP r.2.2.1 kv.1 == some kv.2)

/-- mergeRel merges one relationship: create it unless an equal-pattern
relationship already exists. -/
def mergeRel (st : Store) (src : Nat) (t : String) (pat : PropMap) (dst : Nat) : Store :=
  if st.rels.any (fun r => relMatches r src t pat dst) then st
  else { st with rels := st.rels ++ [(src, t, pat, dst)] }

/-- runLinkStatement models the single statement built by `add_links`:
MATCH the source node and every destination node by id (no row, hence
no effect, if any id is absent), then MERGE one relationship per link
entry. -/
def runLinkStatement (st : Store) (src : Nat) (ls : List (String × Nat × PropMap)) : Store :=
  if (getNode? st src).isSome && ls.all (fun l => (getNode? st l.2.1).isSome) then
    ls.foldl (fun acc l => mergeRel acc src l.1 l.2.2 l.2.1) st
  else st

/-- add_links models `IYP.add_links`: every link entry is checked and
formatted first (an AssertionError aborts the call before any statement
is issued), then all links are merged by one single statement. -/
def add_links (s : IYPState) (src : Nat) (links : List Link) : Except Err IYPState := do
  let checked ← links.mapM checkLink
  return { s with tx := runLinkStatement s.tx src checked, queries := s.queries + 1 }

/-- exceptDecEq makes results of the embedded operations comparable by
`decide`. -/
instance exceptDecEq {ε α : Type} [DecidableEq ε] [DecidableEq α] :
    DecidableEq (Except ε α) := fun x y =>
  match x, y with
  | .ok a, .ok b =>
    if h : a = b then .isTrue (by rw [h]) else .isFalse (by intro hc; cases hc; exact h rfl)
  | .error a, .error b =>
    if h : a = b then .isTrue (by rw [h]) else .isFalse (by intro hc; cases hc; exact h rfl)
  | .ok _, .error _ => .isFalse (by intro hc; cases hc)
  | .error _, .ok _ => .isFalse (by intro hc; cases hc)

/-- okState extracts the state of a successful resolver call; used to
name the intermediate states of the concrete scenarios below. -/
def okState (r : Except Err (IYPState × Option Nat)) : IYPState :=
  match r with
  | .ok x => x.1
  | .error _ => emptyIYP

def asnProp : PropMap := [("asn", Value.vInt 1)]

/-- afterCreateAS is the state after resolving AS 1 with create=True
from a fresh instance: node 0 exists in the open transaction and the
identifier is cached. -/
def afterCreateAS : IYPState := okState (get_node emptyIYP (.one "AS") asnProp true)

def pfx4 : PropMap := [("prefix", Value.vStr "10.0.0.0/8"), ("af", Value.vInt 4)]

def pfx6 : PropMap := [("prefix", Value.vStr "10.0.0.0/8"), ("af", Value.vInt 6)]

/-- pfxSt is the state after resolving the af=4 form of the prefix: a
PREFIX node exists, so a later create with the same prefix value but
af=6 violates the PREFIX uniqueness constraint. -/
def pfxSt : IYPState := okState (get_node emptyIYP (.one "PREFIX") pfx4 true)

/-- pfxSt2 is the state after the conflicting af=6 creating resolve:
the merge raised ConstraintError, the fallback match found nothing, and
None was cached for a create=True key. -/
def pfxSt2 : IYPState := okState (get_node pfxSt (.one "PREFIX") pfx6 true)

def asnStr : PropMap := [("asn", Value.vStr "65000")]

def asnInt : PropMap := [("asn", Value.vInt 65000)]

def asnStrSt : IYPState := okState (get_node emptyIYP (.one "AS") asnStr true)

def asnIntSt : IYPState := okState (get_node asnStrSt (.one "AS") asnInt true)

def perm1 : PropMap := [("a", Value.vInt 1), ("b", Value.vInt 2)]

def perm2 : PropMap := [("b", Value.vInt 2), ("a", Value.vInt 1)]

def permSt : IYPState := okState (get_node emptyIYP (.one "FOO") perm1 true)

def goodLink : Link := ("ORIGINATE", 0,
  [("reference_org", Value.vStr "TEST"), ("reference_url", Value.vStr "http://x"),
   ("reference_time", Value.vStr "2023-01-01")])

def badLink : Link := ("ORIGINATE", 0, [("reference_org", Value.vStr "TEST")])

/-- noKey states that a property map has no binding at all for key
`k`. -/
def noKey (k : String) (q : PropMap) : Prop := ∀ kv ∈ q, kv.1 ≠ k

/-- keyAll states that every binding of key `k` carries the value
`w`. -/
def keyAll (k : String) (w : Value) (q : PropMap) : Prop := ∀ kv ∈ q, kv.1 = k → kv.2 = w

/-- stepDone states that one normalization rule is already satisfied:
either the key is absent, or every binding of it holds one value fixed
by the rule. -/
def stepDone (f : Value → Except Err Value) (k : String) (q : PropMap) : Prop :=
  noKey k q ∨ ∃ w, f w = .ok w ∧ keyAll k w q

/-!
Lemmas about characters, strings and the normalizer, building to the
idempotence of `format_properties`.
-/

theorem toNat_ofNat_small (n : Nat) (h : n < 55296) : (Char.ofNat n).toNat = n := by
  have h2 : n < 55296 ∨ 57343 < n ∧ n < 1114112 := Or.inl h
  simp only [Char.ofNat, dif_pos h2, Char.ofNatAux, Char.toNat]
  rfl

theorem char_toLower_idem (c : Char) : (c.toLower).toLower = c.toLower := by
  unfold Char.toLower
  by_cases h : c.toNat ≥ 65 ∧ c.toNat ≤ 90
  · rw [if_pos h]
    have hv : (Char.ofNat (c.toNat + 32)).toNat = c.toNat + 32 :=
      toNat_ofNat_small _ (by omega)
    rw [hv, if_neg (by omega)]
  · rw [if_neg h, if_neg h]

theorem char_toUpper_idem (c : Char) : (c.toUpper).toUpper = c.toUpper := by
  unfold Char.toUpper
  by_cases h : c.toNat ≥ 97 ∧ c.toNat ≤ 122
  · rw [if_pos h]
    have hv : (Char.ofNat (c.toNat - 32)).toNat = c.toNat - 32 :=
      toNat_ofNat_small _ (by omega)
    rw [hv, if_neg (by omega)]
  · rw [if_neg h, if_neg h]

theorem strLower_idem (s : String) : strLower (strLower s) = strLower s := by
  simp only [strLower, List.map_map]
  exact congrArg String.mk (List.map_congr_left (fun c _ => char_toLower_idem c))

theorem strUpper_idem (s : String) : strUpper (strUpper s) = strUpper s := by
  simp only [strUpper, List.map_map]
  exact congrArg String.mk (List.map_congr_left (fun c _ => char_toUpper_idem c))

theorem toIntValue_stable (v w : Value) (h : toIntValue v = .ok w) :
    toIntValue w = .ok w := by
  cases v with
  | vInt n => cases h; rfl
  | vStr s =>
    simp only [toIntValue] at h
    cases hp : strToInt s with
    | none => rw [hp] at h; cases h
    | some n => rw [hp] at h; cases h; rfl

theorem lowerValue_stable (v w : Value) (h : lowerValue v = .ok w) :
    lowerValue w = .ok w := by
  cases v with
  | vInt n => cases h
  | vStr s => cases h; simp [lowerValue, strLower_idem]

theorem upperValue_stable (v w : Value) (h : upperValue v = .ok w) :
    upperValue w = .ok w := by
  cases v with
  | vInt n => cases h
  | vStr s => cases h; simp [upperValue, strUpper_idem]

theorem lookupP_cons (k : String) (kv : String × Value) (p : PropMap) :
    lookupP (kv :: p) k = if k = kv.1 then some kv.2 else lookupP p k := by
  obtain ⟨a, b⟩ := kv
  by_cases h : k = a
  · simp [lookupP, List.lookup, h]
  · simp only [lookupP, List.lookup]
    rw [show (k == a) = false from beq_eq_false_iff_ne.2 h]
    simp [h]

theorem lookupP_setKey_ne (p : PropMap) (k k' : String) (v : Value) (h : k ≠ k') :
    lookupP (setKey p k' v) k = lookupP p k := by
  induction p with
  | nil => rfl
  | cons kv rest ih =>
    simp only [setKey, List.map_cons]
    by_cases hk : kv.1 = k'
    · rw [if_pos hk, lookupP_cons, lookupP_cons, if_neg h, if_neg (by rw [hk]; exact h)]
      exact ih
    · rw [if_neg hk, lookupP_cons, lookupP_cons]
      by_cases hh : k = kv.1
      · simp [hh]
      · simp only [if_neg hh]
        exact ih

theorem keyAll_setKey_self (p : PropMap) (k : String) (v : Value) :
    keyAll k v (setKey p k v) := by
  intro kv hmem hk
  simp only [setKey, List.mem_map] at hmem
  obtain ⟨x, _, hx⟩ := hmem
  by_cases hxk : x.1 = k
  · rw [if_pos hxk] at hx
    rw [← hx]
  · rw [if_neg hxk] at hx
    rw [← hx] at hk
    exact absurd hk hxk

theorem keyAll_setKey_ne (p : PropMap) (k k' : String) (w v : Value) (h : k ≠ k')
    (hall : keyAll k w p) : keyAll k w (setKey p k' v) := by
  intro kv hmem hk
  simp only [setKey, List.mem_map] at hmem
  obtain ⟨x, hxmem, hx⟩ := hmem
  by_cases hxk : x.1 = k'
  · rw [if_pos hxk] at hx
    rw [← hx] at hk
    exact absurd hk.symm h
  · rw [if_neg hxk] at hx
    rw [← hx] at hk ⊢
    exact hall x hxmem hk

theorem noKey_setKey (p : PropMap) (k k' : String) (v : Value) (h : k' ≠ k)
    (hn : noKey k p) : noKey k (setKey p k' v) := by
  intro kv hmem
  simp only [setKey, List.mem_map] at hmem
  obtain ⟨x, hxmem, hx⟩ := hmem
  by_cases hxk : x.1 = k'
  · rw [if_pos hxk] at hx
    rw [← hx]
    exact h
  · rw [if_neg hxk] at hx
    rw [← hx]
    exact hn x hxmem

theorem setKey_of_keyAll (p : PropMap) (k : String) (v : Value) (hall : keyAll k v p) :
    setKey p k v = p := by
  unfold setKey
  have : ∀ x ∈ p, (if x.1 = k then (k, v) else x) = id x := by
    intro x hxmem
    by_cases hxk : x.1 = k
    · rw [if_pos hxk]
      have hv := hall x hxmem hxk
      simp only [id_eq]
      rw [← hxk, ← hv]
    · rw [if_neg hxk]
      rfl
  rw [List.map_congr_left this, List.map_id]

theorem lookupP_of_noKey (p : PropMap) (k : String) (h : noKey k p) :
    lookupP p k = none := by
  induction p with
  | nil => rfl
  | cons kv rest ih =>
    rw [lookupP_cons]
    have hne : kv.1 ≠ k := h kv (List.mem_cons_self kv rest)
    rw [if_neg (fun hh => hne hh.symm)]
    exact ih (fun x hx => h x (List.mem_cons_of_mem kv hx))

theorem noKey_of_lookupP (p : PropMap) (k : String) (h : lookupP p k = none) :
    noKey k p := by
  induction p with
  | nil => intro kv hmem; cases hmem
  | cons kv rest ih =>
    rw [lookupP_cons] at h
    intro x hmem
    rcases List.mem_cons.1 hmem with heq | hmem2
    · subst heq
      intro hk
      rw [if_pos hk.symm] at h
      cases h
    · by_cases hk : k = kv.1
      · rw [if_pos hk] at h; cases h
      · rw [if_neg hk] at h
        exact ih h x hmem2

theorem lookupP_of_keyAll (p : PropMap) (k : String) (w : Value) (hall : keyAll k w p) :
    lookupP p k = none ∨ lookupP p k = some w := by
  induction p with
  | nil => exact Or.inl rfl
  | cons kv rest ih =>
    rw [lookupP_cons]
    by_cases hk : k = kv.1
    · rw [if_pos hk]
      exact Or.inr (by rw [hall kv (List.mem_cons_self kv rest) hk.symm])
    · rw [if_neg hk]
      exact ih (fun x hx => hall x (List.mem_cons_of_mem kv hx))

theorem exceptBind_err {ε α β : Type} (e : ε) (f : α → Except ε β) :
    (Except.error e >>= f) = Except.error e := rfl

theorem exceptBind_ok {ε α β : Type} (a : α) (f : α → Except ε β) :
    (Except.ok a >>= f) = f a := rfl

theorem exceptPure_bind {ε α β : Type} (a : α) (f : α → Except ε β) :
    ((pure a : Except ε α) >>= f) = f a := rfl

theorem formatKey_ok_cases (f : Value → Except Err Value) (k : String) (p p' : PropMap)
    (h : formatKey f k p = .ok p') :
    (lookupP p k = none ∧ p' = p) ∨
    (∃ v w, lookupP p k = some v ∧ f v = .ok w ∧ p' = setKey p k w) := by
  unfold formatKey at h
  cases hl : lookupP p k with
  | none => rw [hl] at h; dsimp only at h; cases h; exact Or.inl ⟨rfl, rfl⟩
  | some v =>
    rw [hl] at h
    dsimp only at h
    cases hf : f v with
    | error e => rw [hf] at h; rw [exceptBind_err] at h; cases h
    | ok w =>
      rw [hf] at h
      rw [exceptBind_ok] at h
      simp only [pure, Except.pure, Except.ok.injEq] at h
      exact Or.inr ⟨v, w, rfl, hf, h.symm⟩

theorem formatKey_of_stepDone (f : Value → Except Err Value) (k : String) (q : PropMap)
    (h : stepDone f k q) : formatKey f k q = .ok q := by
  unfold formatKey
  rcases h with hn | ⟨w, hfw, hall⟩
  · rw [lookupP_of_noKey q k hn]
  · rcases lookupP_of_keyAll q k w hall with hl | hl
    · rw [hl]
    · rw [hl]
      dsimp only
      rw [hfw, exceptBind_ok]
      simp only [pure, Except.pure, Except.ok.injEq]
      exact setKey_of_keyAll q k w hall

theorem stepDone_of_formatKey (f : Value → Except Err Value) (k : String) (p p' : PropMap)
    (hstab : ∀ v w, f v = .ok w → f w = .ok w)
    (h : formatKey f k p = .ok p') : stepDone f k p' := by
  rcases formatKey_ok_cases f k p p' h with ⟨hl, hp⟩ | ⟨v, w, hl, hf, hp⟩
  · rw [hp]; exact Or.inl (noKey_of_lookupP p k hl)
  · rw [hp]; exact Or.inr ⟨w, hstab v w hf, keyAll_setKey_self p k w⟩

theorem stepDone_preserve (f g : Value → Except Err Value) (k k' : String) (q q' : PropMap)
    (hne : k ≠ k') (hsd : stepDone f k q)
    (h : formatKey g k' q = .ok q') : stepDone f k q' := by
  rcases formatKey_ok_cases g k' q q' h with ⟨_, hp⟩ | ⟨v, w, _, _, hp⟩
  · rw [hp]; exact hsd
  · rw [hp]
    rcases hsd with hn | ⟨w0, hfw, hall⟩
    · exact Or.inl (noKey_setKey q k k' w (fun hh => hne hh.symm) hn)
    · exact Or.inr ⟨w0, hfw, keyAll_setKey_ne q k k' w0 w hne hall⟩

theorem formatKey_lookup_ne (f : Value → Except Err Value) (k k' : String) (p p' : PropMap)
    (hne : k' ≠ k) (h : formatKey f k p = .ok p') :
    lookupP p' k' = lookupP p k' := by
  rcases formatKey_ok_cases f k p p' h with ⟨_, hp⟩ | ⟨v, w, _, _, hp⟩
  · rw [hp]
  · rw [hp]; exact lookupP_setKey_ne p k' k w hne

theorem format_properties_steps (p q : PropMap) (h : format_properties p = .ok q) :
    ∃ p1 p2 p3, formatKey toIntValue "asn" p = .ok p1 ∧
      formatKey lowerValue "ip" p1 = .ok p2 ∧
      formatKey lowerValue "prefix" p2 = .ok p3 ∧
      formatKey upperValue "country_code" p3 = .ok q := by
  unfold format_properties at h
  cases h1 : formatKey toIntValue "asn" p with
  | error e => rw [h1, exceptBind_err] at h; cases h
  | ok p1 =>
    rw [h1, exceptBind_ok] at h
    cases h2 : formatKey lowerValue "ip" p1 with
    | error e => rw [h2, exceptBind_err] at h; cases h
    | ok p2 =>
      rw [h2, exceptBind_ok] at h
      cases h3 : formatKey lowerValue "prefix" p2 with
      | error e => rw [h3, exceptBind_err] at h; cases h
      | ok p3 =>
        rw [h3, exceptBind_ok] at h
        cases h4 : formatKey upperValue "country_code" p3 with
        | error e => rw [h4, exceptBind_err] at h; cases h
        | ok p4 =>
          rw [h4, exceptBind_ok] at h
          simp only [pure, Except.pure, Except.ok.injEq] at h
          refine ⟨p1, p2, p3, rfl, h2, h3, ?_⟩
          rw [h4, h]

/-- C8: the property normalizer is a pure function of its input (the
source copies the dict with `prop = dict(prop)` before mutating, so the
caller map is untouched; the embedding is a total function) and is
idempotent in the exception monad: rerunning `format_properties` on a
successful result returns it unchanged, and every property other than
asn, ip, the prefix key and country_code passes through unchanged. -/
theorem format_properties_pure_idem (p : PropMap) :
    (format_properties p).bind format_properties = format_properties p ∧
    (∀ q, format_properties p = .ok q →
      ∀ k, k ≠ "asn" → k ≠ "ip" → k ≠ "prefix" → k ≠ "country_code" →
        lookupP q k = lookupP p k) := by
  constructor
  · cases hq : format_properties p with
    | error e => rfl
    | ok q =>
      show format_properties q = Except.ok q
      obtain ⟨p1, p2, p3, h1, h2, h3, h4⟩ := format_properties_steps p q hq
      have sd1 : stepDone toIntValue "asn" q :=
        stepDone_preserve _ _ _ _ _ _ (by decide)
          (stepDone_preserve _ _ _ _ _ _ (by decide)
            (stepDone_preserve _ _ _ _ _ _ (by decide)
              (stepDone_of_formatKey _ _ _ _ toIntValue_stable h1) h2) h3) h4
      have sd2 : stepDone lowerValue "ip" q :=
        stepDone_preserve _ _ _ _ _ _ (by decide)
          (stepDone_preserve _ _ _ _ _ _ (by decide)
            (stepDone_of_formatKey _ _ _ _ lowerValue_stable h2) h3) h4
      have sd3 : stepDone lowerValue "prefix" q :=
        stepDone_preserve _ _ _ _ _ _ (by decide)
          (stepDone_of_formatKey _ _ _ _ lowerValue_stable h3) h4
      have sd4 : stepDone upperValue "country_code" q :=
        stepDone_of_formatKey _ _ _ _ upperValue_stable h4
      unfold format_properties
      rw [formatKey_of_stepDone _ _ _ sd1, exceptBind_ok,
          formatKey_of_stepDone _ _ _ sd2, exceptBind_ok,
          formatKey_of_stepDone _ _ _ sd3, exceptBind_ok,
          formatKey_of_stepDone _ _ _ sd4, exceptBind_ok]
      rfl
  · intro q hq k hk1 hk2 hk3 hk4
    obtain ⟨p1, p2, p3, h1, h2, h3, h4⟩ := format_properties_steps p q hq
    calc lookupP q k = lookupP p3 k := formatKey_lookup_ne _ _ _ _ _ hk4 h4
      _ = lookupP p2 k := formatKey_lookup_ne _ _ _ _ _ hk3 h3
      _ = lookupP p1 k := formatKey_lookup_ne _ _ _ _ _ hk2 h2
      _ = lookupP p k := formatKey_lookup_ne _ _ _ _ _ hk1 h1

theorem get_node_hit (s : IYPState) (t : String) (p : PropMap) (c : Bool) (v : Option Nat)
    (h : cacheLookup s (cacheKey t p c) = some v) :
    get_node s (.one t) p c = .ok (s, v) := by
  unfold get_node
  dsimp only
  rw [h]

theorem get_node_populates (s : IYPState) (t : String) (p : PropMap) (c : Bool)
    (s1 : IYPState) (v : Option Nat)
    (h : get_node s (.one t) p c = .ok (s1, v)) :
    cacheLookup s1 (cacheKey t p c) = some v := by
  unfold get_node at h
  dsimp only at h
  cases hc : cacheLookup s (cacheKey t p c) with
  | some w =>
    rw [hc] at h
    dsimp only at h
    cases h
    exact hc
  | none =>
    rw [hc] at h
    dsimp only at h
    cases hb : get_node_body s t p c with
    | error e => rw [hb, exceptBind_err] at h; cases h
    | ok x =>
      rw [hb, exceptBind_ok] at h
      obtain ⟨s2, r⟩ := x
      dsimp only at h
      simp only [pure, Except.pure, Except.ok.injEq, Prod.mk.injEq] at h
      obtain ⟨hs, hv⟩ := h
      rw [← hs, ← hv]
      simp [cacheLookup, List.find?]

/-- C6: calling `get_node` twice with the same label, property map and
create=True in the same transaction returns the same value both times,
and the second call leaves the state (including the statement counter)
unchanged: it is answered from the cache without any store query. -/
theorem resolve_twice_cached (s : IYPState) (t : String) (p : PropMap)
    (s1 : IYPState) (v : Option Nat)
    (h : get_node s (.one t) p true = .ok (s1, v)) :
    get_node s1 (.one t) p true = .ok (s1, v) :=
  get_node_hit s1 t p true v (get_node_populates s t p true s1 v h)

theorem resolve_twice_cached_witness :
    get_node afterCreateAS (.one "AS") asnProp true = .ok (afterCreateAS, some 0) :=
  resolve_twice_cached emptyIYP "AS" asnProp afterCreateAS (some 0) (by decide)

/-- C7 (amended): two resolve calls whose raw property maps are equal
as dicts (same bindings in any iteration order, i.e. equal canonical
forms) hit the same cache entry: the second call returns the cached
value with no store query.  However, asn supplied as the string
"65000" versus the int 65000 yields two distinct cache entries (the
cache key uses the raw, unnormalized map), and only the store merge
makes both resolve to the same node id; and a label list crashes (see
C10), so label order insensitivity never arises. -/
theorem cache_key_order_insensitive :
    (∀ (s : IYPState) (t : String) (p1 p2 : PropMap) (c : Bool) (s1 : IYPState) (v : Option Nat),
      canon p1 = canon p2 →
      get_node s (.one t) p1 c = .ok (s1, v) →
      get_node s1 (.one t) p2 c = .ok (s1, v)) ∧
    (get_node emptyIYP (.one "AS") asnStr true = .ok (asnStrSt, some 0) ∧
     cacheLookup asnStrSt (cacheKey "AS" asnInt true) = none ∧
     get_node asnStrSt (.one "AS") asnInt true = .ok (asnIntSt, some 0)) := by
  constructor
  · intro s t p1 p2 c s1 v hc h
    have hk : cacheKey t p2 c = cacheKey t p1 c := by unfold cacheKey; rw [hc]
    have hpop := get_node_populates s t p1 c s1 v h
    apply get_node_hit
    rw [hk]
    exact hpop
  · exact ⟨by decide, by decide, by decide⟩

theorem cache_key_order_insensitive_witness :
    get_node permSt (.one "FOO") perm2 true = .ok (permSt, some 0) :=
  cache_key_order_insensitive.1 emptyIYP "FOO" perm1 perm2 true permSt (some 0)
    (by decide) (by decide)

/-- C7 (counterexample): the spec example
`resolve(["AS","FOO"], ...)` versus `resolve(["FOO","AS"], ...)` does
not return one shared identifier: both calls raise TypeError at the
memoization layer because a Python list is unhashable. -/
theorem label_list_example_crashes :
    get_node emptyIYP (.many ["AS", "FOO"]) asnStr true = .error .typeError ∧
    get_node emptyIYP (.many ["FOO", "AS"]) asnInt true = .error .typeError :=
  ⟨rfl, rfl⟩

/-- C10: every call to `get_node` whose labels argument is a list (of
any length, any property map, any create flag) raises an unhandled
TypeError in `lru_cache` before the body runs, so no store query is
issued (the result carries no successor state: the store and counters
are untouched). -/
theorem list_labels_typeerror (s : IYPState) (ls : List String) (p : PropMap) (c : Bool) :
    get_node s (.many ls) p c = .error .typeError := rfl

/-- C9 (counterexample): a creating resolve whose descriptor carries
two constrained labels (AS and PREFIX) never selects a merge-key label:
the call fails with TypeError before the selection code runs, because
multiple labels can only be passed as an unhashable list. -/
theorem multi_constrained_crashes :
    get_node emptyIYP (.many ["AS", "PREFIX"])
      [("asn", Value.vInt 1), ("prefix", Value.vStr "8.8.8.0/24"), ("af", Value.vInt 4)] true
      = .error .typeError := rfl

/-- C9 (amended): an entity descriptor carrying more than one
constrained label necessarily passes its labels as a list, and every
such call dies with TypeError at the memoization layer; the set-pop
selection of a merge key in the body is unreachable, so no label is
ever picked and no labels are applied. -/
theorem multi_constrained_never_selected (s : IYPState) (ls : List String) (p : PropMap)
    (c : Bool) (_h : 2 ≤ (ls.filter (fun l => NODE_CONSTRAINTS_LABELS.contains l)).length) :
    get_node s (.many ls) p c = .error .typeError := rfl

theorem multi_constrained_never_selected_witness :
    get_node emptyIYP (.many ["AS", "IP"]) [("asn", Value.vInt 1)] true = .error .typeError :=
  multi_constrained_never_selected emptyIYP ["AS", "IP"] [("asn", Value.vInt 1)] true (by decide)

/-- C1: commit() and rollback() do NOT invalidate the resolution
caches.  Concretely: resolving AS 1 with create=True creates node 0 and
caches its id; rollback() empties the transaction store but leaves both
lru_cache tables (node cache and external-id cache) intact, and the
same resolve issued after the boundary is answered from the
pre-boundary cache with identifier 0 even though the node it names was
rolled back and no longer exists. -/
theorem stale_cache_after_rollback :
    get_node emptyIYP (.one "AS") asnProp true = .ok (afterCreateAS, some 0) ∧
    (rollback afterCreateAS).tx.nodes = [] ∧
    (rollback afterCreateAS).cache = afterCreateAS.cache ∧
    (rollback afterCreateAS).extCache = afterCreateAS.extCache ∧
    (commit afterCreateAS).cache = afterCreateAS.cache ∧
    (commit afterCreateAS).extCache = afterCreateAS.extCache ∧
    get_node (rollback afterCreateAS) (.one "AS") asnProp true
      = .ok (rollback afterCreateAS, some 0) := by decide

theorem checkLink_error_of_missing (l : Link)
    (h : hasKey l.2.2 "reference_org" = false ∨ hasKey l.2.2 "reference_url" = false ∨
         hasKey l.2.2 "reference_time" = false) :
    ∃ e, checkLink l = .error e := by
  unfold checkLink
  by_cases h1 : hasKey l.2.2 "reference_org"
  · by_cases h2 : hasKey l.2.2 "reference_url"
    · by_cases h3 : hasKey l.2.2 "reference_time"
      · rcases h with hh | hh | hh
        · rw [h1] at hh; cases hh
        · rw [h2] at hh; cases hh
        · rw [h3] at hh; cases hh
      · refine ⟨Err.assertionError, ?_⟩
        simp only [h1, h2, eq_false_of_ne_true h3, Bool.not_true, Bool.not_false,
          if_true, if_false, ite_true, ite_false]
        rfl
    · refine ⟨Err.assertionError, ?_⟩
      simp only [h1, eq_false_of_ne_true h2, Bool.not_true, Bool.not_false,
        if_true, if_false, ite_true, ite_false]
      rfl
  · refine ⟨Err.assertionError, ?_⟩
    simp only [eq_false_of_ne_true h1, Bool.not_true, Bool.not_false,
      if_true, if_false, ite_true, ite_false]
    rfl

theorem mapM_checkLink_error (links : List Link)
    (h : ∃ l ∈ links, ∃ e, checkLink l = .error e) :
    ∃ e, links.mapM checkLink = .error e := by
  induction links with
  | nil => obtain ⟨l, hl, _⟩ := h; cases hl
  | cons a rest ih =>
    rw [List.mapM_cons]
    cases ha : checkLink a with
    | error e => exact ⟨e, by rw [exceptBind_err]⟩
    | ok b =>
      obtain ⟨l, hl, e0, he⟩ := h
      rcases List.mem_cons.1 hl with rfl | hmem
      · rw [ha] at he; cases he
      · obtain ⟨e, hrest⟩ := ih ⟨l, hmem, e0, he⟩
        refine ⟨e, ?_⟩
        rw [exceptBind_ok, hrest, exceptBind_err]

/-- C3: if any link entry of an `add_links` batch is missing one of
the three mandatory provenance keys (reference_org, reference_url,
reference_time), the whole call raises before any statement is issued
(there is no successor state, so zero relationships are merged and the
query counter never moves); when every entry checks out, the whole
batch is applied by one single statement (query counter + 1). -/
theorem add_links_all_or_nothing (s : IYPState) (src : Nat) (links : List Link) :
    ((∃ l ∈ links, hasKey l.2.2 "reference_org" = false ∨
        hasKey l.2.2 "reference_url" = false ∨ hasKey l.2.2 "reference_time" = false) →
      ∃ e, add_links s src links = .error e) ∧
    (∀ cs, links.mapM checkLink = .ok cs →
      add_links s src links =
        .ok { s with tx := runLinkStatement s.tx src cs, queries := s.queries + 1 }) := by
  constructor
  · intro h
    obtain ⟨l, hl, hmiss⟩ := h
    obtain ⟨e, he⟩ := mapM_checkLink_error links ⟨l, hl, checkLink_error_of_missing l hmiss⟩
    exact ⟨e, by unfold add_links; rw [he, exceptBind_err]⟩
  · intro cs hcs
    unfold add_links
    rw [hcs, exceptBind_ok]
    rfl

theorem add_links_all_or_nothing_witness :
    (∃ e, add_links afterCreateAS 0 [goodLink, badLink] = .error e) ∧
    add_links afterCreateAS 0 [goodLink] =
      .ok { afterCreateAS with
            tx := runLinkStatement afterCreateAS.tx 0 [goodLink],
            queries := afterCreateAS.queries + 1 } :=
  ⟨(add_links_all_or_nothing afterCreateAS 0 [goodLink, badLink]).1
      ⟨badLink, by decide, by decide⟩,
   (add_links_all_or_nothing afterCreateAS 0 [goodLink]).2 [goodLink] (by decide)⟩

/-- C4: when the constrained merge-or-match statement of a creating
resolve raises ConstraintError, `get_node` still returns successfully
(the violation never propagates): it writes one warning, issues a plain
MATCH on only the constrained key properties against the unchanged
transaction store, returns that match result (an existing id or None),
and caches it. -/
theorem constraint_violation_fallback (s : IYPState) (t : String) (p q cp : PropMap)
    (hmiss : cacheLookup s (cacheKey t p true) = none)
    (hf : format_properties p = .ok q)
    (hty : NODE_CONSTRAINTS_LABELS.contains t = true)
    (hcp : constraintProp t q = .ok cp)
    (hviol : mergeConstrained s.tx t cp [t] q = .error ()) :
    get_node s (.one t) p true =
      .ok ({ s with
             cache := (cacheKey t p true, matchNode s.tx [t] cp) :: s.cache,
             queries := s.queries + 2,
             warnings := s.warnings + 1 },
           matchNode s.tx [t] cp) := by
  unfold get_node
  dsimp only
  rw [hmiss]
  unfold get_node_body
  rw [hf, exceptBind_ok]
  rw [hty]
  dsimp only [if_true]
  rw [hcp, exceptBind_ok, hviol]
  rfl

theorem constraint_violation_fallback_witness :
    get_node pfxSt (.one "PREFIX") pfx6 true =
      .ok ({ pfxSt with
             cache := (cacheKey "PREFIX" pfx6 true, matchNode pfxSt.tx ["PREFIX"] pfx6)
               :: pfxSt.cache,
             queries := pfxSt.queries + 2,
             warnings := pfxSt.warnings + 1 },
           matchNode pfxSt.tx ["PREFIX"] pfx6) :=
  constraint_violation_fallback pfxSt "PREFIX" pfx6 pfx6 pfx6
    (by decide) (by decide) (by decide) (by decide) (by decide)

/-- C5 (amended): a cache-missing creating resolve that completes can
cache None only through one path: the label is constrained, the merge
statement raised ConstraintError, and the fallback match on the key
properties found no node.  Every other completed creating call returns
and caches a real identifier. -/
theorem create_notfound_only_fallback (s : IYPState) (t : String) (p : PropMap)
    (s1 : IYPState)
    (hmiss : cacheLookup s (cacheKey t p true) = none)
    (h : get_node s (.one t) p true = .ok (s1, none)) :
    NODE_CONSTRAINTS_LABELS.contains t = true ∧
    ∃ q cp, format_properties p = .ok q ∧ constraintProp t q = .ok cp ∧
      mergeConstrained s.tx t cp [t] q = .error () ∧ matchNode s.tx [t] cp = none := by
  unfold get_node at h
  dsimp only at h
  rw [hmiss] at h
  unfold get_node_body at h
  cases hf : format_properties p with
  | error e => rw [hf, exceptBind_err, exceptBind_err] at h; cases h
  | ok q =>
    rw [hf, exceptBind_ok] at h
    cases hcon : NODE_CONSTRAINTS_LABELS.contains t with
    | false =>
      rw [hcon] at h
      simp only [Bool.false_eq_true, if_false, ite_true, if_true] at h
      rw [exceptPure_bind] at h
      simp only [pure, Except.pure, Except.ok.injEq, Prod.mk.injEq] at h
      exact absurd h.2 (by simp)
    | true =>
      rw [hcon] at h
      simp only [if_true] at h
      refine ⟨rfl, q, ?_⟩
      cases hcp : constraintProp t q with
      | error e => rw [hcp, exceptBind_err, exceptBind_err] at h; cases h
      | ok cp =>
        rw [hcp, exceptBind_ok] at h
        cases hm : mergeConstrained s.tx t cp [t] q with
        | ok x =>
          rw [hm] at h
          obtain ⟨st1, i⟩ := x
          dsimp only at h
          rw [exceptPure_bind] at h
          simp only [pure, Except.pure, Except.ok.injEq, Prod.mk.injEq] at h
          exact absurd h.2 (by simp)
        | error u =>
          rw [hm] at h
          dsimp only at h
          rw [exceptPure_bind] at h
          simp only [pure, Except.pure, Except.ok.injEq, Prod.mk.injEq] at h
          exact ⟨cp, rfl, rfl, hm, h.2⟩

/-- C5 (counterexample): a creating resolve CAN populate the cache
with a NotFound result: with PREFIX 10.0.0.0/8 af=4 already present,
resolving PREFIX 10.0.0.0/8 af=6 with create=True trips the uniqueness
constraint, the fallback match finds nothing, and None is returned and
memoized under a create=True key. -/
theorem creating_call_caches_notfound :
    get_node pfxSt (.one "PREFIX") pfx6 true = .ok (pfxSt2, none) ∧
    cacheLookup pfxSt2 (cacheKey "PREFIX" pfx6 true) = some none := by decide

theorem create_notfound_only_fallback_witness :
    NODE_CONSTRAINTS_LABELS.contains "PREFIX" = true ∧
    ∃ q cp, format_properties pfx6 = .ok q ∧ constraintProp "PREFIX" q = .ok cp ∧
      mergeConstrained pfxSt.tx "PREFIX" cp ["PREFIX"] q = .error () ∧
      matchNode pfxSt.tx ["PREFIX"] cp = none :=
  create_notfound_only_fallback pfxSt "PREFIX" pfx6 pfxSt2 (by decide) (by decide)

theorem allDistinct_le_one (l : List Value) (h : l.length ≤ 1) : allDistinct l = true := by
  cases l with
  | nil => rfl
  | cons a rest =>
    cases rest with
    | nil => rfl
    | cons b r2 => simp at h

theorem uniqueOk_singleton (x : Nat × Node) (rels : List (Nat × String × PropMap × Nat))
    (n : Nat) : uniqueOk { nodes := [x], rels := rels, nextId := n } = true := by
  unfold uniqueOk
  apply List.all_eq_true.2
  intro lp _
  apply allDistinct_le_one
  calc (List.filterMap _ (List.filter _ [x])).length
      ≤ (List.filter _ [x]).length := List.length_filterMap_le _ _
    _ ≤ [x].length := List.length_filter_le _ _
    _ = 1 := rfl

theorem lookupP_append (p q : PropMap) (k : String) :
    lookupP (p ++ q) k = match lookupP p k with
      | some v => some v
      | none => lookupP q k := by
  induction p with
  | nil => rfl
  | cons kv rest ih =>
    rw [List.cons_append, lookupP_cons, lookupP_cons]
    by_cases h : k = kv.1
    · simp [h]
    · simp only [if_neg h]
      exact ih

theorem lookupP_setKey_self (b : PropMap) (k : String) (v : Value) (h : hasKey b k = true) :
    lookupP (setKey b k v) k = some v := by
  induction b with
  | nil => simp [hasKey, lookupP, List.lookup] at h
  | cons kv rest ih =>
    simp only [setKey, List.map_cons]
    by_cases hk : kv.1 = k
    · rw [if_pos hk, lookupP_cons]
      simp
    · rw [if_neg hk, lookupP_cons, if_neg (fun hh => hk hh.symm)]
      apply ih
      unfold hasKey at h
      rw [lookupP_cons, if_neg (fun hh => hk hh.symm)] at h
      exact h

theorem lookupP_dictSet_self (b : PropMap) (k : String) (v : Value) :
    lookupP (dictSet b k v) k = some v := by
  unfold dictSet
  by_cases h : hasKey b k
  · rw [if_pos h]
    exact lookupP_setKey_self b k v h
  · rw [if_neg h, lookupP_append]
    unfold hasKey at h
    cases hl : lookupP b k with
    | some w => rw [hl] at h; simp at h
    | none =>
      show lookupP [(k, v)] k = some v
      rw [lookupP_cons]
      simp

theorem lookupP_dictSet_ne (b : PropMap) (k k' : String) (v : Value) (h : k ≠ k') :
    lookupP (dictSet b k' v) k = lookupP b k := by
  unfold dictSet
  by_cases hb : hasKey b k'
  · rw [if_pos hb]
    exact lookupP_setKey_ne b k k' v h
  · rw [if_neg hb, lookupP_append]
    cases hl : lookupP b k with
    | some w => rfl
    | none =>
      rw [lookupP_cons, if_neg h]
      rfl

theorem lookupP_setProps_of_none (b q : PropMap) (k : String) (h : lookupP q k = none) :
    lookupP (setProps b q) k = lookupP b k := by
  induction q generalizing b with
  | nil => rfl
  | cons kv rest ih =>
    rw [lookupP_cons] at h
    by_cases hk : k = kv.1
    · rw [if_pos hk] at h; cases h
    · rw [if_neg hk] at h
      show lookupP (setProps (dictSet b kv.1 kv.2) rest) k = lookupP b k
      rw [ih _ h, lookupP_dictSet_ne _ _ _ _ hk]

theorem lookupP_setProps_of_some (b q : PropMap) (k : String) (v : Value)
    (hnd : (q.map Prod.fst).Nodup) (h : lookupP q k = some v) :
    lookupP (setProps b q) k = some v := by
  induction q generalizing b with
  | nil => cases h
  | cons kv rest ih =>
    rw [List.map_cons, List.nodup_cons] at hnd
    rw [lookupP_cons] at h
    by_cases hk : k = kv.1
    · rw [if_pos hk] at h
      have hrest : lookupP rest k = none := by
        apply lookupP_of_noKey
        intro x hx hxk
        apply hnd.1
        have hmem : x.1 ∈ List.map Prod.fst rest := List.mem_map_of_mem Prod.fst hx
        rw [← hk, ← hxk]
        exact hmem
      show lookupP (setProps (dictSet b kv.1 kv.2) rest) k = some v
      rw [lookupP_setProps_of_none _ _ _ hrest, hk, lookupP_dictSet_self]
      exact h
    · rw [if_neg hk] at h
      show lookupP (setProps (dictSet b kv.1 kv.2) rest) k = some v
      exact ih _ hnd.2 h


theorem constraintProp_mem (t : String) (q cp : PropMap) (h : constraintProp t q = .ok cp) :
    ∀ kv ∈ cp, lookupP q kv.1 = some kv.2 := by
  unfold constraintProp at h
  generalize constraintKeys t = ks at h
  induction ks generalizing cp with
  | nil =>
    cases h
    intro kv hkv
    cases hkv
  | cons c rest ih =>
    rw [List.mapM_cons] at h
    cases hl : lookupP q c with
    | none => rw [hl] at h; dsimp only at h; rw [exceptBind_err] at h; cases h
    | some v =>
      rw [hl] at h
      dsimp only at h
      rw [exceptBind_ok] at h
      cases hrest : rest.mapM (fun c => match lookupP q c with
          | some v => Except.ok (c, v)
          | none => Except.error (Err.keyError c)) with
      | error e => rw [hrest, exceptBind_err] at h; cases h
      | ok cps =>
        rw [hrest, exceptBind_ok] at h
        simp only [pure, Except.pure, Except.ok.injEq] at h
        intro kv hkv
        rw [← h] at hkv
        rcases List.mem_cons.1 hkv with rfl | hmem
        · exact hl
        · exact ih cps hrest kv hmem

theorem addLabels_self (t : String) : addLabels [t] [t] = [t] := by
  simp [addLabels, List.contains_cons]

theorem matchNode_singleton (i : Nat) (nd : Node) (rels : List (Nat × String × PropMap × Nat))
    (nid : Nat) (labels : List String) (pat : PropMap) :
    matchNode { nodes := [(i, nd)], rels := rels, nextId := nid } labels pat
      = if nodeMatches nd labels pat then some i else none := by
  unfold matchNode
  by_cases h : nodeMatches nd labels pat
  · simp [List.find?, h]
  · simp [List.find?, h]

theorem updNode_singleton (i : Nat) (nd : Node) (rels : List (Nat × String × PropMap × Nat))
    (nid : Nat) (f : Node → Node) :
    updNode { nodes := [(i, nd)], rels := rels, nextId := nid } i f
      = { nodes := [(i, f nd)], rels := rels, nextId := nid } := by
  simp [updNode]

theorem getNode_singleton (i : Nat) (nd : Node) (rels : List (Nat × String × PropMap × Nat))
    (nid : Nat) :
    getNode? { nodes := [(i, nd)], rels := rels, nextId := nid } i = some nd := by
  simp [getNode?, List.find?]

/-- C2: resolving (create=True, from a fresh instance) two
descriptors of a constrained label whose normalized constraint-key
values agree but whose property maps differ returns the same node
identifier (0) for both calls, and after the second call the node
carries every property of the second descriptor with the second
descriptor value — the merge overwrites all supplied properties on the
match branch (last writer wins). -/
theorem constrained_last_write_wins (t : String) (p1 p2 q1 q2 cp : PropMap)
    (hty : NODE_CONSTRAINTS_LABELS.contains t = true)
    (hf1 : format_properties p1 = .ok q1) (hf2 : format_properties p2 = .ok q2)
    (hcp1 : constraintProp t q1 = .ok cp) (hcp2 : constraintProp t q2 = .ok cp)
    (hnd1 : (q1.map Prod.fst).Nodup) (hnd2 : (q2.map Prod.fst).Nodup)
    (hdiff : canon p1 ≠ canon p2) :
    ∃ s1 s2 : IYPState,
      get_node emptyIYP (.one t) p1 true = .ok (s1, some 0) ∧
      get_node s1 (.one t) p2 true = .ok (s2, some 0) ∧
      ∃ n : Node, getNode? s2.tx 0 = some n ∧
        ∀ k v, lookupP q2 k = some v → lookupP n.props k = some v := by
  have hm1 : mergeConstrained emptyStore t cp [t] q1 =
      .ok ({ nodes := [(0, ⟨addLabels [t] [t], setProps cp q1⟩)], rels := [], nextId := 1 }, 0) := by
    unfold mergeConstrained
    have hmn : matchNode emptyStore [t] cp = none := rfl
    rw [hmn]
    dsimp only [emptyStore]
    simp only [List.nil_append]
    rw [uniqueOk_singleton]
    rfl
  have e1 : get_node emptyIYP (.one t) p1 true =
      .ok ({ committed := emptyStore,
             tx := { nodes := [(0, ⟨addLabels [t] [t], setProps cp q1⟩)], rels := [], nextId := 1 },
             cache := [(cacheKey t p1 true, some 0)], extCache := [],
             queries := 1, warnings := 0 }, some 0) := by
    unfold get_node
    dsimp only
    have hc0 : cacheLookup emptyIYP (cacheKey t p1 true) = none := rfl
    rw [hc0]
    unfold get_node_body
    rw [hf1, exceptBind_ok, hty]
    dsimp only [if_true]
    rw [hcp1, exceptBind_ok]
    dsimp only [emptyIYP]
    rw [hm1]
    rfl
  have hkne : ¬ (cacheKey t p1 true = cacheKey t p2 true) := fun hh =>
    hdiff (congrArg CacheKey.prop hh)
  have hmatch : nodeMatches ⟨addLabels [t] [t], setProps cp q1⟩ [t] cp = true := by
    unfold nodeMatches
    rw [Bool.and_eq_true]
    constructor
    · rw [addLabels_self]
      simp [List.contains_cons]
    · apply List.all_eq_true.2
      intro kv hkv
      have hq := constraintProp_mem t q1 cp hcp1 kv hkv
      dsimp only
      rw [lookupP_setProps_of_some cp q1 kv.1 kv.2 hnd1 hq]
      simp
  have hm2 : mergeConstrained
      { nodes := [(0, ⟨addLabels [t] [t], setProps cp q1⟩)], rels := [], nextId := 1 }
      t cp [t] q2
      = .ok ({ nodes := [(0, ⟨addLabels (addLabels [t] [t]) [t],
                            setProps (setProps cp q1) q2⟩)], rels := [], nextId := 1 }, 0) := by
    unfold mergeConstrained
    rw [matchNode_singleton, hmatch, if_pos rfl]
    dsimp only
    rw [updNode_singleton, uniqueOk_singleton, if_pos rfl]
  have hc2 : cacheLookup
      { committed := emptyStore,
        tx := { nodes := [(0, ⟨addLabels [t] [t], setProps cp q1⟩)], rels := [], nextId := 1 },
        cache := [(cacheKey t p1 true, some 0)], extCache := [],
        queries := 1, warnings := 0 } (cacheKey t p2 true) = none := by
    unfold cacheLookup
    simp only [List.find?]
    rw [show (decide ((cacheKey t p1 true, some 0).1 = cacheKey t p2 true)) = false from
      decide_eq_false hkne]
    rfl
  have e2 : get_node
      { committed := emptyStore,
        tx := { nodes := [(0, ⟨addLabels [t] [t], setProps cp q1⟩)], rels := [], nextId := 1 },
        cache := [(cacheKey t p1 true, some 0)], extCache := [],
        queries := 1, warnings := 0 } (.one t) p2 true =
      .ok ({ committed := emptyStore,
             tx := { nodes := [(0, ⟨addLabels (addLabels [t] [t]) [t],
                                  setProps (setProps cp q1) q2⟩)], rels := [], nextId := 1 },
             cache := (cacheKey t p2 true, some 0) :: [(cacheKey t p1 true, some 0)],
             extCache := [], queries := 2, warnings := 0 }, some 0) := by
    unfold get_node
    dsimp only
    rw [hc2]
    unfold get_node_body
    rw [hf2, exceptBind_ok, hty]
    dsimp only [if_true]
    rw [hcp2, exceptBind_ok]
    rw [hm2]
    rfl
  refine ⟨_, _, e1, e2, ⟨addLabels (addLabels [t] [t]) [t],
    setProps (setProps cp q1) q2⟩, ?_, ?_⟩
  · exact getNode_singleton 0 _ [] 1
  · intro k v hkv
    exact lookupP_setProps_of_some _ _ _ _ hnd2 hkv

theorem constrained_last_write_wins_witness :
    ∃ s1 s2 : IYPState,
      get_node emptyIYP (.one "AS") [("asn", Value.vInt 65000), ("name", Value.vStr "A")] true
        = .ok (s1, some 0) ∧
      get_node s1 (.one "AS") [("asn", Value.vInt 65000), ("name", Value.vStr "B")] true
        = .ok (s2, some 0) ∧
      ∃ n : Node, getNode? s2.tx 0 = some n ∧
        ∀ k v, lookupP [("asn", Value.vInt 65000), ("name", Value.vStr "B")] k = some v →
          lookupP n.props k = some v :=
  constrained_last_write_wins "AS"
    [("asn", Value.vInt 65000), ("name", Value.vStr "A")]
    [("asn", Value.vInt 65000), ("name", Value.vStr "B")]
    [("asn", Value.vInt 65000), ("name", Value.vStr "A")]
    [("asn", Value.vInt 65000), ("name", Value.vStr "B")]
    [("asn", Value.vInt 65000)]
    (by decide) (by decide) (by decide) (by decide) (by decide)
    (by decide) (by decide) (by decide)


/-- Witness for C8 at a concrete map: the descr property passes through
the normalizer unchanged. -/
theorem format_properties_pure_idem_witness :
    lookupP [("asn", Value.vInt 65000), ("descr", Value.vStr "Example")] "descr"
      = lookupP [("asn", Value.vStr "65000"), ("descr", Value.vStr "Example")] "descr" :=
  (format_properties_pure_idem [("asn", Value.vStr "65000"), ("descr", Value.vStr "Example")]).2
    [("asn", Value.vInt 65000), ("descr", Value.vStr "Example")] (by decide)
    "descr" (by decide) (by decide) (by decide) (by decide)

end Iyp
